import Mathlib

/-!
Verification of the remote debugging coordinator (`server.py`).

The server keeps, per program: a breakpoint set, an attachment (which session
is debugging it), running/paused marker sets, and a resumable execution state
(cursor plus variable context).  Commands arrive from sessions identified by
an address.  This file embeds `DebuggerServer.process_command`, `run`, `cont`
and the disconnect cleanup of `handle_client` as pure functions over an
explicit server state, and proves the specified properties.

Modelling conventions:
* Python dicts are association lists (`List (String × α)`): lookup finds the
  first matching key, assignment updates the first occurrence in place or
  appends, deletion removes the key.  Python sets of program names / line
  numbers are duplicate-free lists.
* Python ints are `Int`; cursors (list indices) are `Nat`.
* In the source, `self.states[p]` holds a tuple whose context component is
  the same dict object as `self.contexts[p]` (both are only ever (re)bound
  together, in `attach` and `run`), so an in-place mutation of the context is
  visible through both.  The embedding keeps both maps and writes the new
  context to both wherever the source mutates the shared object.
* Wire framing, the interactive client and the `clients` map are out of
  scope; command tokenisation is embedded in the `Cmd` constructors, except
  that `add_breakpoint`/`rmv_breakpoint` keep their raw token list (their
  argument-count check and integer parse are behaviourally relevant).
* The statement interpreter (`exec`/`eval` in the source) is an external
  collaborator per the spec; the embedding is parametric in an `Interp`,
  and a concrete assignment-and-arithmetic stub is provided for scenarios.
-/

namespace DebugSrv

/-- Variable context: Python dict mapping variable names to values.  The stub
interpreter's values are integers. -/
abbrev Ctx := List (String × Int)

/-- First-match association-list lookup (Python dict indexing). -/
def alookup {α : Type} : List (String × α) → String → Option α
  | [], _ => none
  | (k, v) :: rest, key => if k = key then some v else alookup rest key

/-- Association-list assignment: update the first occurrence in place
(keeping its position, as Python dicts keep insertion order) or append. -/
def aset {α : Type} : List (String × α) → String → α → List (String × α)
  | [], key, v => [(key, v)]
  | (k, w) :: rest, key, v =>
    if k = key then (key, v) :: rest else (k, w) :: aset rest key v

/-- Association-list deletion (Python `del d[k]`). -/
def aerase {α : Type} : List (String × α) → String → List (String × α)
  | [], _ => []
  | (k, w) :: rest, key =>
    if k = key then aerase rest key else (k, w) :: aerase rest key

/-- Python `dict.setdefault(k, d)`: insert `(k, d)` if the key is absent. -/
def setdefault {α : Type} (l : List (String × α)) (key : String) (d : α) :
    List (String × α) :=
  if (alookup l key).isSome then l else l ++ [(key, d)]

/-- Python `set.add` on a set of program names. -/
def sinsert (l : List String) (x : String) : List String :=
  if x ∈ l then l else l ++ [x]

/-- Python `set.discard` on a set of program names. -/
def sremove (l : List String) (x : String) : List String :=
  l.filter (fun y => y ≠ x)

/-- Python `set.add` on a breakpoint set. -/
def bpinsert (l : List Int) (n : Int) : List Int :=
  if n ∈ l then l else l ++ [n]

/-- Python `set.discard` on a breakpoint set. -/
def bpdiscard (l : List Int) (n : Int) : List Int :=
  l.filter (fun m => m ≠ n)

/-- Insertion into an ascending list, for `sorted`. -/
def insertAsc (n : Int) : List Int → List Int
  | [] => [n]
  | m :: rest => if n ≤ m then n :: m :: rest else m :: insertAsc n rest

/-- Python `sorted` on a breakpoint set. -/
def sortAsc : List Int → List Int
  | [] => []
  | n :: rest => insertAsc n (sortAsc rest)

/-- Python `str.strip()`: drop leading and trailing whitespace.  (Defined at
the character level so that it evaluates by kernel reduction.) -/
def pyStrip (s : String) : String :=
  String.mk (((s.data.dropWhile Char.isWhitespace).reverse.dropWhile
    Char.isWhitespace).reverse)

/-- Python `line.startswith('#')`. -/
def startsHash (s : String) : Bool :=
  match s.data with
  | c :: _ => c = ('#')
  | [] => false

/-- Python `k.startswith('__')`. -/
def startsUU (s : String) : Bool :=
  match s.data with
  | a :: b :: _ => a = ('_') && b = ('_')
  | _ => false

/-- Accumulate a decimal digit string (fails on a non-digit). -/
def digitsToNatAux : List Char → Nat → Option Nat
  | [], acc => some acc
  | c :: rest, acc =>
    if c.isDigit then
      digitsToNatAux rest (acc * 10 + (c.toNat - ('0').toNat))
    else none

/-- Python `int(tok)`: optional sign and decimal digits, with surrounding
whitespace ignored; anything else raises (returns `none`). -/
def pyToInt (s : String) : Option Int :=
  match (pyStrip s).data with
  | [] => none
  | c :: rest =>
    if c = ('-') then
      match rest with
      | [] => none
      | _ => (digitsToNatAux rest 0).map (fun n => -(n : Int))
    else if c = ('+') then
      match rest with
      | [] => none
      | _ => (digitsToNatAux rest 0).map (fun n => (n : Int))
    else (digitsToNatAux (c :: rest) 0).map (fun n => (n : Int))

/-- Split a character list on a separator (Python `str.split(sep)`). -/
def splitOnChar (sep : Char) : List Char → List (List Char)
  | [] => [[]]
  | c :: rest =>
    if c = sep then [] :: splitOnChar sep rest
    else
      match splitOnChar sep rest with
      | t :: ts => (c :: t) :: ts
      | [] => [[c]]

/-- Split a string on a separator character. -/
def splitStr (sep : Char) (s : String) : List String :=
  (splitOnChar sep s.data).map String.mk

/-- Whitespace tokenisation (Python `str.split()` drops empty fields). -/
def tokenize (s : String) : List String :=
  (splitStr (' ') s).filter (fun t => !t.data.isEmpty)

/-- The external statement interpreter contract (spec §6): execute one
statement against a context, or evaluate one expression to a value. -/
structure Interp where
  execStmt : String → Ctx → Except String Ctx
  evalExpr : String → Ctx → Except String Int

/-- Full server state (the mutable fields of `DebuggerServer`; the `clients`
socket map is transport bookkeeping and is not modelled). -/
structure ServerState where
  /-- `self.programs`: catalog, program name ↦ lines (the `splitlines` of the
  stored text; immutable after startup). -/
  programs : List (String × List String)
  /-- `self.breakpoints`: program name ↦ set of breakpoint line numbers. -/
  breakpoints : List (String × List Int)
  /-- `self.debugging`: program name ↦ address of the attached session. -/
  debugging : List (String × Nat)
  /-- `self.executing`: set of currently running programs. -/
  executing : List String
  /-- `self.paused`: set of programs paused at a breakpoint. -/
  paused : List String
  /-- `self.contexts`: program name ↦ variable context. -/
  contexts : List (String × Ctx)
  /-- `self.states`: program name ↦ (cursor, context); the context component
  aliases `contexts` in the source. -/
  states : List (String × (Nat × Ctx))
  deriving DecidableEq

/-- The commands of `process_command`, after tokenisation. -/
inductive Cmd where
  | help
  | listPrograms
  | listBreakpoints (program : String)
  | addBreakpoint (args : List String)
  | rmvBreakpoint (args : List String)
  | attach (program : String)
  | detach
  | start
  | contCmd
  | getVar (var : String)
  | setVar (var : String) (val : String)
  | unknown (name : String)
  deriving DecidableEq

/-- Structured form of the response strings returned by the server; each
constructor corresponds to one `return` site, carrying its data. -/
inductive Resp where
  | helpText
  | programsList (names : List String)
  | notFound (program : String)
  | breakpointsList (program : String) (lines : List Int)
  | formatErrAdd
  | formatErrRmv
  | busy (program : String)
  | bpSet (line : String) (program : String)
  | bpRemoved (line : String) (program : String)
  | lineMustBeInt
  | alreadyDebugged (program : String)
  | alreadyDebuggingOther (program : String)
  | attached (program : String)
  | detached (program : String)
  | notAttached
  | needsAttachment (name : String)
  | notPaused (program : String)
  | startFirst
  | breakpointAt (line : Nat) (stmt : String)
  | finished (program : String) (vars : List (String × String))
  | errorOnLine (line : Nat) (msg : String)
  | varValue (var : String) (val : String)
  | varNotFound (var : String)
  | varSet (var : String) (val : String)
  | evalError (msg : String)
  | unknownCmd (name : String)
  deriving DecidableEq

/-- Is a (stripped) line executable?  The run loop skips blank lines and
comment lines. -/
def execLine (l : String) : Bool :=
  !((pyStrip l).data.isEmpty || startsHash (pyStrip l))

/-- Outcome of one run-loop invocation. -/
inductive StepResult where
  | pausedAt (line : Nat) (stmt : String) (cursor : Nat) (ctx : Ctx)
  | finished (cursor : Nat) (ctx : Ctx)
  | errored (line : Nat) (msg : String) (ctx : Ctx)
  deriving DecidableEq

/-- `lines[idx].strip() if idx < len(lines) else 'end of program'`, applied
to the remaining lines. -/
def nextStmt : List String → String
  | [] => "end of program"
  | s :: _ => pyStrip s

/-- The `while idx < len(lines)` loop of `DebuggerServer.cont`, recursing on
the remaining lines (`rem = lines[idx:]`) with `idx` the absolute cursor:
strip the current line; skip it if blank or a comment; otherwise execute it,
and after incrementing the cursor pause if `idx + 1` (one-based line number
of the line after the next) is a registered breakpoint. -/
def contLoop (interp : Interp) (bps : List Int) :
    List String → Nat → Ctx → StepResult
  | [], idx, ctx => .finished idx ctx
  | l :: rest, idx, ctx =>
    let line := pyStrip l
    if line.data.isEmpty || startsHash line then
      contLoop interp bps rest (idx + 1) ctx
    else
      match interp.execStmt line ctx with
      | .error e => .errored (idx + 1) e ctx
      | .ok ctx' =>
        if ((idx : Int) + 2) ∈ bps then
          .pausedAt (idx + 2) (nextStmt rest) (idx + 1) ctx'
        else
          contLoop interp bps rest (idx + 1) ctx'

/-- The `vars` dictionary of the `Finished` response: every binding whose
name does not start with a double underscore, rendered with `repr`. -/
def pvars (ctx : Ctx) : List (String × String) :=
  (ctx.filter (fun kv => !(startsUU kv.1))).map
    (fun kv => (kv.1, toString kv.2))

/-- Program lines for `p` (`self.programs[program].splitlines()`). -/
def linesOf (s : ServerState) (p : String) : List String :=
  (alookup s.programs p).getD []

/-- Registered breakpoints for `p` (empty when `p` has no store entry). -/
def bpsOf (s : ServerState) (p : String) : List Int :=
  (alookup s.breakpoints p).getD []

/-- Response corresponding to a run-loop outcome for program `p`. -/
def stepResp (p : String) : StepResult → Resp
  | .pausedAt line stmt _ _ => .breakpointAt line stmt
  | .finished _ ctx => .finished p (pvars ctx)
  | .errored line msg _ => .errorOnLine line msg

/-- `DebuggerServer.cont`: mark running, run the loop from the stored cursor
and context, then record the outcome.  On a pause the new cursor/context pair
is stored and the program is marked paused; on completion both markers are
cleared and the final pair stored; on an interpreter error both markers are
cleared and — the source does not reassign `self.states[program]`, but the
context object inside it has been mutated in place — the stored pair keeps
the entry cursor with the partially updated context. -/
def cont (interp : Interp) (s : ServerState) (p : String) :
    Resp × ServerState :=
  match alookup s.states p with
  | none => (.startFirst, s)
  | some (idx, ctx) =>
    let s1 : ServerState :=
      { s with executing := sinsert s.executing p, paused := sremove s.paused p }
    let lines := linesOf s1 p
    match contLoop interp (bpsOf s1 p) (lines.drop idx) idx ctx with
    | .pausedAt line stmt c ctx' =>
      (.breakpointAt line stmt,
       { s1 with
           states := aset s1.states p (c, ctx')
           contexts := aset s1.contexts p ctx'
           executing := sremove s1.executing p
           paused := sinsert s1.paused p })
    | .finished c ctx' =>
      (.finished p (pvars ctx'),
       { s1 with
           executing := sremove s1.executing p
           paused := sremove s1.paused p
           states := aset s1.states p (c, ctx')
           contexts := aset s1.contexts p ctx' })
    | .errored line msg ctx' =>
      (.errorOnLine line msg,
       { s1 with
           executing := sremove s1.executing p
           paused := sremove s1.paused p
           states := aset s1.states p (idx, ctx')
           contexts := aset s1.contexts p ctx' })

/-- `DebuggerServer.run`: mark running, clear paused, reset the context to a
fresh empty dict and the stored state to cursor `0` with that context, then
continue. -/
def run (interp : Interp) (s : ServerState) (p : String) :
    Resp × ServerState :=
  cont interp
    { s with
        executing := sinsert s.executing p
        paused := sremove s.paused p
        contexts := aset s.contexts p []
        states := aset s.states p (0, []) }
    p

/-- The program the session at `addr` is attached to: first entry of
`self.debugging` whose value is `addr`. -/
def sessionProgram (s : ServerState) (addr : Nat) : Option String :=
  (s.debugging.find? (fun e => e.2 == addr)).map (fun e => e.1)

/-- `DebuggerServer.process_command`, one command from session `addr`. -/
def process_command (interp : Interp) (s : ServerState) (addr : Nat) :
    Cmd → Resp × ServerState
  | .help => (.helpText, s)
  | .listPrograms => (.programsList (s.programs.map (fun e => e.1)), s)
  | .listBreakpoints p =>
    match alookup s.breakpoints p with
    | none => (.notFound p, s)
    | some l => (.breakpointsList p (sortAsc l), s)
  | .addBreakpoint args =>
    match args with
    | [p, line] =>
      if (alookup s.programs p).isNone then (.notFound p, s)
      else if p ∈ s.executing ∨ p ∈ s.paused then (.busy p, s)
      else
        -- `self.breakpoints.setdefault(program, set())` is evaluated before
        -- `int(line)` can fail, so the (possibly empty) entry is created
        -- even when the line token is rejected.
        let s1 : ServerState :=
          { s with breakpoints := setdefault s.breakpoints p [] }
        match pyToInt line with
        | some n =>
          let bps' := aset s1.breakpoints p (bpinsert (bpsOf s1 p) n)
          (.bpSet line p, { s1 with breakpoints := bps' })
        | none => (.lineMustBeInt, s1)
    | _ => (.formatErrAdd, s)
  | .rmvBreakpoint args =>
    match args with
    | [p, line] =>
      if (alookup s.programs p).isNone then (.notFound p, s)
      else if p ∈ s.executing ∨ p ∈ s.paused then (.busy p, s)
      else
        let s1 : ServerState :=
          { s with breakpoints := setdefault s.breakpoints p [] }
        match pyToInt line with
        | some n =>
          let bps' := aset s1.breakpoints p (bpdiscard (bpsOf s1 p) n)
          (.bpRemoved line p, { s1 with breakpoints := bps' })
        | none => (.lineMustBeInt, s1)
    | _ => (.formatErrRmv, s)
  | .attach p =>
    if p = ("") ∨ (alookup s.programs p).isNone then (.notFound p, s)
    else if (alookup s.debugging p).isSome then (.alreadyDebugged p, s)
    else
      match s.debugging.find? (fun e => e.2 == addr) with
      | some e => (.alreadyDebuggingOther e.1, s)
      | none =>
        let s1 : ServerState := { s with debugging := aset s.debugging p addr }
        if (alookup s1.states p).isNone then
          (.attached p,
           { s1 with
               contexts := aset s1.contexts p []
               states := aset s1.states p (0, []) })
        else (.attached p, s1)
  | .detach =>
    match s.debugging.find? (fun e => e.2 == addr) with
    | some e =>
      (.detached e.1,
       { s with
           debugging := aerase s.debugging e.1
           executing := sremove s.executing e.1
           paused := sremove s.paused e.1 })
    | none => (.notAttached, s)
  | .start =>
    match sessionProgram s addr with
    | none => (.needsAttachment ("start"), s)
    | some p => run interp s p
  | .contCmd =>
    match sessionProgram s addr with
    | none => (.needsAttachment ("continue"), s)
    | some p =>
      if p ∈ s.paused then cont interp s p else (.notPaused p, s)
  | .getVar v =>
    match sessionProgram s addr with
    | none => (.needsAttachment ("get_var"), s)
    | some p =>
      match alookup ((alookup s.contexts p).getD []) v with
      | some val => (.varValue v (toString val), s)
      | none => (.varNotFound v, s)
  | .setVar v val =>
    match sessionProgram s addr with
    | none => (.needsAttachment ("set_var"), s)
    | some p =>
      match alookup s.contexts p with
      | none => (.evalError ("KeyError"), s)
      | some ctx =>
        match interp.evalExpr val ctx with
        | .ok n =>
          let ctx' := aset ctx v n
          -- the stored tuple's context aliases `contexts[p]`
          let states' :=
            match alookup s.states p with
            | some ic => aset s.states p (ic.1, ctx')
            | none => s.states
          (.varSet v (toString n),
           { s with
               contexts := aset s.contexts p ctx'
               states := states' })
        | .error e => (.evalError e, s)
  | .unknown name =>
    match sessionProgram s addr with
    | none => (.needsAttachment name, s)
    | some _ => (.unknownCmd name, s)

/-- The disconnect cleanup in `handle_client`'s `finally` block: every
program debugged by the departing session is removed from `self.debugging`
and discarded from `self.executing` and `self.paused`. -/
def cleanup (s : ServerState) (addr : Nat) : ServerState :=
  let victims := (s.debugging.filter (fun e => e.2 == addr)).map (fun e => e.1)
  { s with
      debugging := s.debugging.filter (fun e => e.2 != addr)
      executing := s.executing.filter (fun p => !victims.contains p)
      paused := s.paused.filter (fun p => !victims.contains p) }

/-- An externally visible event: a command from a session, or a session's
disconnect. -/
inductive Event where
  | ecmd (addr : Nat) (c : Cmd)
  | edisc (addr : Nat)
  deriving DecidableEq

/-- One event step on the server state. -/
def stepEv (interp : Interp) (s : ServerState) : Event → ServerState
  | .ecmd a c => (process_command interp s a c).2
  | .edisc a => cleanup s a

/-- Server state right after startup: the loaded catalog, everything else
empty. -/
def mkInit (catalog : List (String × List String)) : ServerState :=
  { programs := catalog, breakpoints := [], debugging := [],
    executing := [], paused := [], contexts := [], states := [] }

/-- Replay a sequence of events from the initial state. -/
def replay (interp : Interp) (catalog : List (String × List String))
    (evs : List Event) : ServerState :=
  evs.foldl (stepEv interp) (mkInit catalog)

/-- Run a list of commands (each tagged with its session), collecting the
responses. -/
def runCmds (interp : Interp) :
    ServerState → List (Nat × Cmd) → List Resp × ServerState
  | s, [] => ([], s)
  | s, (a, c) :: rest =>
    let r := process_command interp s a c
    let rs := runCmds interp r.2 rest
    (r.1 :: rs.1, rs.2)

/-! ### The pause trace of a full run

`start` enters the run loop at cursor `0` with a fresh context; every pause
stores the cursor/context pair it reports, and `continue` re-enters the loop
at exactly that pair.  `pauseLines` iterates this until the loop no longer
pauses, collecting the reported breakpoint line numbers; the fuel is an upper
bound on the number of pauses (each pause strictly advances the cursor, which
never exceeds the number of lines). -/

/-- Collect the line numbers of the successive pauses when resuming the run
loop from `(idx, ctx)` until it finishes or errors. -/
def pauseLines (interp : Interp) (lines : List String) (bps : List Int) :
    Nat → Nat → Ctx → List Nat
  | 0, _, _ => []
  | fuel + 1, idx, ctx =>
    match contLoop interp bps (lines.drop idx) idx ctx with
    | .pausedAt line _ c ctx' => line :: pauseLines interp lines bps fuel c ctx'
    | _ => []

/-- Breakpoint lines a `start`-initiated run pauses at, in order. -/
def runPauses (interp : Interp) (lines : List String) (bps : List Int) :
    List Nat :=
  pauseLines interp lines bps (lines.length + 1) 0 []

/-- The breakpoint lines the run loop actually honours, in ascending order:
walking the lines with their one-based successor-successor numbering, line
number `idx + 2` is collected when the line at index `idx` is executable and
`idx + 2` is registered.  (A breakpoint at line 1 is never checked, and the
check is skipped after a blank/comment line.) -/
def honouredBpsAux (bps : List Int) : List String → Nat → List Nat
  | [], _ => []
  | l :: rest, idx =>
    if execLine l ∧ ((idx : Int) + 2) ∈ bps then
      (idx + 2) :: honouredBpsAux bps rest (idx + 1)
    else
      honouredBpsAux bps rest (idx + 1)

/-- The breakpoint lines honoured by a full run of `lines` under `bps`. -/
def honouredBps (lines : List String) (bps : List Int) : List Nat :=
  honouredBpsAux bps lines 0

/-! ### A concrete assignment-and-arithmetic interpreter

Modelled from the spec: the Statement Interpreter is an external collaborator
("an opaque capability consumed by the core"); the spec's design notes call
for "a stub interpreter (e.g., one supporting only assignment and
arithmetic)", and Scenario A/B exercise exactly assignments of arithmetic
over integer literals and variables.  `stubInterp` executes statements of the
form `name = expr`, where `expr` is a left-associated chain of `+`, `-`, `*`
over integer literals and variables. -/

/-- Evaluate an atom: an integer literal or a variable reference. -/
def evalAtom (ctx : Ctx) (t : String) : Except String Int :=
  match pyToInt t with
  | some n => .ok n
  | none =>
    match alookup ctx t with
    | some v => .ok v
    | none => .error ("name not defined: " ++ t)

/-- Fold a left-associated chain of binary arithmetic operators. -/
def evalOps (ctx : Ctx) : Int → List String → Except String Int
  | acc, [] => .ok acc
  | acc, op :: t :: rest => do
    let v ← evalAtom ctx t
    if op = ("+") then evalOps ctx (acc + v) rest
    else if op = ("-") then evalOps ctx (acc - v) rest
    else if op = ("*") then evalOps ctx (acc * v) rest
    else .error ("bad operator: " ++ op)
  | _, [_] => .error ("dangling operator")

/-- Evaluate a whitespace-tokenised arithmetic expression. -/
def evalArith (ctx : Ctx) (e : String) : Except String Int :=
  match tokenize e with
  | [] => .error ("empty expression")
  | t :: rest => do
    let v ← evalAtom ctx t
    evalOps ctx v rest

/-- Execute an assignment statement `name = expr`. -/
def execAssign (stmt : String) (ctx : Ctx) : Except String Ctx :=
  match splitStr ('=') stmt with
  | [lhs, rhs] => do
    let v ← evalArith ctx rhs
    .ok (aset ctx (pyStrip lhs) v)
  | _ => .error ("not an assignment: " ++ stmt)

/-- The assignment-and-arithmetic stub interpreter. -/
def stubInterp : Interp :=
  { execStmt := execAssign
    evalExpr := fun e ctx => evalArith ctx e }

/-- An interpreter whose statements always succeed (and do nothing): used to
witness interpreter-independent run-loop facts. -/
def okInterp : Interp :=
  { execStmt := fun _ ctx => .ok ctx
    evalExpr := fun _ _ => .ok 0 }

/-- A concrete state for examples: `demo = ["x = 1"]` attached to session 0
and paused with stored state `(0, [])`. -/
def pausedDemo : ServerState :=
  { programs := [(("demo"), ["x = 1"])], breakpoints := [],
    debugging := [(("demo"), 0)], executing := [], paused := [("demo")],
    contexts := [(("demo"), [])], states := [(("demo"), (0, []))] }

/-- A concrete state for examples: `demo = ["x = y"]` (which errors, `y`
being unbound) attached to session 0, idle with stored state `(0, [])`. -/
def erroringDemo : ServerState :=
  { programs := [(("demo"), ["x = y"])], breakpoints := [],
    debugging := [(("demo"), 0)], executing := [], paused := [],
    contexts := [(("demo"), [])], states := [(("demo"), (0, []))] }

/-- A concrete state for examples: `demo = ["x = 1"]` attached to session 0
with a stale stored binding `z = 9` at cursor 1. -/
def staleDemo : ServerState :=
  { programs := [(("demo"), ["x = 1"])], breakpoints := [],
    debugging := [(("demo"), 0)], executing := [], paused := [],
    contexts := [(("demo"), [(("z"), 9)])],
    states := [(("demo"), (1, [(("z"), 9)]))] }

/-! ## Association-list and set lemmas -/

theorem alookup_aset_self {α : Type} (l : List (String × α)) (k : String)
    (v : α) : alookup (aset l k v) k = some v := by
  induction l with
  | nil => simp [aset, alookup]
  | cons e rest ih =>
    by_cases h : e.1 = k
    · simp [aset, h, alookup]
    · simp [aset, h, alookup, ih]

theorem alookup_aset_ne {α : Type} (l : List (String × α)) {k k' : String}
    (v : α) (h : k' ≠ k) : alookup (aset l k v) k' = alookup l k' := by
  induction l with
  | nil => simp [aset, alookup, Ne.symm h]
  | cons e rest ih =>
    by_cases he : e.1 = k
    · subst he
      simp [aset, alookup, Ne.symm h]
    · by_cases he' : e.1 = k'
      · simp [aset, he, alookup, he', h]
      · simp [aset, he, alookup, he', ih]

theorem aset_of_absent {α : Type} {l : List (String × α)} {k : String}
    (v : α) (h : alookup l k = none) : aset l k v = l ++ [(k, v)] := by
  induction l with
  | nil => simp [aset]
  | cons e rest ih =>
    by_cases he : e.1 = k
    · simp [alookup, he] at h
    · simp [alookup, he] at h
      simp [aset, he, ih h]

theorem alookup_none_iff {α : Type} (l : List (String × α)) (k : String) :
    alookup l k = none ↔ k ∉ l.map (fun e => e.1) := by
  induction l with
  | nil => simp [alookup]
  | cons e rest ih =>
    by_cases he : e.1 = k
    · simp [alookup, he]
    · simp [alookup, he, ih, Ne.symm he]

theorem alookup_isSome_of_mem {α : Type} {l : List (String × α)}
    {e : String × α} (h : e ∈ l) : (alookup l e.1).isSome := by
  induction l with
  | nil => simp at h
  | cons f rest ih =>
    rcases List.mem_cons.mp h with h | h
    · subst h
      simp [alookup]
    · by_cases hf : f.1 = e.1
      · simp [alookup, hf]
      · simp only [alookup, hf, if_false]
        exact ih h

theorem mem_aset {α : Type} {l : List (String × α)} {k : String} {v : α}
    {e : String × α} (h : e ∈ aset l k v) : e = (k, v) ∨ e ∈ l := by
  induction l with
  | nil => simpa [aset] using h
  | cons f rest ih =>
    by_cases hf : f.1 = k
    · simp [aset, hf] at h
      rcases h with h | h
      · exact Or.inl h
      · exact Or.inr (List.mem_cons_of_mem _ h)
    · simp [aset, hf] at h
      rcases h with h | h
      · exact Or.inr (by simp [h])
      · rcases ih h with h' | h'
        · exact Or.inl h'
        · exact Or.inr (List.mem_cons_of_mem _ h')

theorem aerase_sublist {α : Type} (l : List (String × α)) (k : String) :
    (aerase l k).Sublist l := by
  induction l with
  | nil => simp [aerase]
  | cons e rest ih =>
    by_cases he : e.1 = k
    · simp [aerase, he]
      exact ih.cons e
    · simp only [aerase, he, if_false]
      exact ih.cons₂ e

theorem alookup_aerase_self {α : Type} (l : List (String × α)) (k : String) :
    alookup (aerase l k) k = none := by
  induction l with
  | nil => simp [aerase, alookup]
  | cons e rest ih =>
    by_cases he : e.1 = k
    · simpa [aerase, he] using ih
    · simp [aerase, he, alookup, ih]

theorem not_mem_sremove (l : List String) (x : String) : x ∉ sremove l x := by
  simp [sremove]

theorem mem_of_mem_sremove {l : List String} {x y : String}
    (h : y ∈ sremove l x) : y ∈ l := by
  simpa [sremove] using (List.mem_of_mem_filter h)

theorem mem_setdefault {α : Type} {l : List (String × α)} {k : String}
    {d : α} {e : String × α} (h : e ∈ setdefault l k d) :
    e ∈ l ∨ e = (k, d) := by
  unfold setdefault at h
  split at h
  · exact Or.inl h
  · rcases List.mem_append.mp h with h | h
    · exact Or.inl h
    · exact Or.inr (by simpa using h)

/-! ## Run-loop lemmas -/

/-- The failing line reported by an errored run loop lies strictly beyond the
entry cursor, i.e. the loop never errors on an already-executed statement. -/
theorem contLoop_errored_lt (interp : Interp) (bps : List Int) :
    ∀ (rem : List String) (idx : Nat) (ctx : Ctx) (L : Nat) (e : String)
      (cfin : Ctx), contLoop interp bps rem idx ctx = .errored L e cfin →
      idx < L := by
  intro rem
  induction rem with
  | nil =>
    intro idx ctx L e cfin h
    simp [contLoop] at h
  | cons l rest ih =>
    intro idx ctx L e cfin h
    rw [contLoop] at h
    split at h
    · exact Nat.lt_of_succ_lt (ih (idx + 1) ctx L e cfin h)
    · split at h
      · simp only [StepResult.errored.injEq] at h
        omega
      · split at h
        · simp at h
        · exact Nat.lt_of_succ_lt (ih (idx + 1) _ L e cfin h)

/-- Characterisation of the run loop when the interpreter never fails: a
pause reports line `c + 1` where `c` is the strictly advanced new cursor, and
peels exactly the first honoured breakpoint; termination without pause means
no breakpoint is honoured from the entry cursor on; no error can occur. -/
theorem contLoop_spec (interp : Interp) (bps : List Int)
    (hok : ∀ st c, ∃ c', interp.execStmt st c = Except.ok c') :
    ∀ (rem : List String) (idx : Nat) (ctx : Ctx),
      (∀ L st c ctx', contLoop interp bps rem idx ctx = .pausedAt L st c ctx' →
        L = c + 1 ∧ idx < c ∧
        honouredBpsAux bps rem idx =
          L :: honouredBpsAux bps (rem.drop (c - idx)) c) ∧
      (∀ c ctx', contLoop interp bps rem idx ctx = .finished c ctx' →
        honouredBpsAux bps rem idx = []) ∧
      (∀ L e ctx', contLoop interp bps rem idx ctx ≠ .errored L e ctx') := by
  intro rem
  induction rem with
  | nil =>
    intro idx ctx
    refine ⟨?_, ?_, ?_⟩
    · intro L st c ctx' h
      simp [contLoop] at h
    · intro c ctx' _
      simp [honouredBpsAux]
    · intro L e ctx' h
      simp [contLoop] at h
  | cons l rest ih =>
    intro idx ctx
    by_cases hskip : ((pyStrip l).data.isEmpty || startsHash (pyStrip l)) = true
    · have hcl : contLoop interp bps (l :: rest) idx ctx =
          contLoop interp bps rest (idx + 1) ctx := by
        rw [contLoop]
        simp [hskip]
      have hex : execLine l = false := by
        simp only [execLine, hskip, Bool.not_true]
      have hh : honouredBpsAux bps (l :: rest) idx =
          honouredBpsAux bps rest (idx + 1) := by
        rw [honouredBpsAux]
        simp [hex]
      obtain ⟨ihp, ihf, ihe⟩ := ih (idx + 1) ctx
      refine ⟨?_, ?_, ?_⟩
      · intro L st c ctx' h
        rw [hcl] at h
        obtain ⟨hL, hlt, hrec⟩ := ihp L st c ctx' h
        refine ⟨hL, by omega, ?_⟩
        rw [hh, hrec]
        have hc : c - idx = (c - (idx + 1)) + 1 := by omega
        rw [hc, List.drop_succ_cons]
      · intro c ctx' h
        rw [hcl] at h
        rw [hh]
        exact ihf c ctx' h
      · intro L e ctx' h
        rw [hcl] at h
        exact ihe L e ctx' h
    · obtain ⟨ctx'', hctx''⟩ := hok (pyStrip l) ctx
      have hex : execLine l = true := by
        simp only [execLine, hskip]
        simp only [Bool.not_eq_true] at hskip
        simp [hskip]
      by_cases hbp : ((idx : Int) + 2) ∈ bps
      · have hcl : contLoop interp bps (l :: rest) idx ctx =
            .pausedAt (idx + 2) (nextStmt rest) (idx + 1) ctx'' := by
          rw [contLoop]
          simp [hskip, hctx'', hbp]
        have hh : honouredBpsAux bps (l :: rest) idx =
            (idx + 2) :: honouredBpsAux bps rest (idx + 1) := by
          rw [honouredBpsAux]
          simp [hex, hbp]
        refine ⟨?_, ?_, ?_⟩
        · intro L st c ctx' h
          rw [hcl] at h
          simp only [StepResult.pausedAt.injEq] at h
          obtain ⟨hL, _, hc, _⟩ := h
          subst hL hc
          refine ⟨rfl, by omega, ?_⟩
          rw [hh]
          simp
        · intro c ctx' h
          rw [hcl] at h
          simp at h
        · intro L e ctx' h
          rw [hcl] at h
          simp at h
      · have hcl : contLoop interp bps (l :: rest) idx ctx =
            contLoop interp bps rest (idx + 1) ctx'' := by
          rw [contLoop]
          simp [hskip, hctx'', hbp]
        have hh : honouredBpsAux bps (l :: rest) idx =
            honouredBpsAux bps rest (idx + 1) := by
          rw [honouredBpsAux]
          simp [hex, hbp]
        obtain ⟨ihp, ihf, ihe⟩ := ih (idx + 1) ctx''
        refine ⟨?_, ?_, ?_⟩
        · intro L st c ctx' h
          rw [hcl] at h
          obtain ⟨hL, hlt, hrec⟩ := ihp L st c ctx' h
          refine ⟨hL, by omega, ?_⟩
          rw [hh, hrec]
          have hc : c - idx = (c - (idx + 1)) + 1 := by omega
          rw [hc, List.drop_succ_cons]
        · intro c ctx' h
          rw [hcl] at h
          rw [hh]
          exact ihf c ctx' h
        · intro L e ctx' h
          rw [hcl] at h
          exact ihe L e ctx' h

/-- Every honoured breakpoint line lies at least two beyond the cursor the
walk started from. -/
theorem honouredBpsAux_lb (bps : List Int) :
    ∀ (rem : List String) (idx L : Nat),
      L ∈ honouredBpsAux bps rem idx → idx + 2 ≤ L := by
  intro rem
  induction rem with
  | nil =>
    intro idx L h
    simp [honouredBpsAux] at h
  | cons l rest ih =>
    intro idx L h
    rw [honouredBpsAux] at h
    split at h
    · rcases List.mem_cons.mp h with h | h
      · omega
      · have := ih (idx + 1) L h
        omega
    · have := ih (idx + 1) L h
      omega

/-- The honoured breakpoint lines are strictly ascending (so each is visited
at most once). -/
theorem honouredBpsAux_chain (bps : List Int) :
    ∀ (rem : List String) (idx : Nat),
      List.Chain' (· < ·) (honouredBpsAux bps rem idx) := by
  intro rem
  induction rem with
  | nil =>
    intro idx
    simp [honouredBpsAux]
  | cons l rest ih =>
    intro idx
    rw [honouredBpsAux]
    split
    · refine List.chain'_cons'.mpr ⟨?_, ih (idx + 1)⟩
      intro b hb
      have hmem : b ∈ honouredBpsAux bps rest (idx + 1) :=
        List.mem_of_mem_head? hb
      have := honouredBpsAux_lb bps rest (idx + 1) b hmem
      omega
    · exact ih (idx + 1)

/-- With sufficient fuel, the collected pause trace from cursor `idx` equals
the honoured breakpoints of the remaining lines. -/
theorem pauseLines_eq (interp : Interp) (lines : List String)
    (bps : List Int)
    (hok : ∀ st c, ∃ c', interp.execStmt st c = Except.ok c') :
    ∀ (fuel idx : Nat) (ctx : Ctx), lines.length + 1 - idx ≤ fuel →
      pauseLines interp lines bps fuel idx ctx =
        honouredBpsAux bps (lines.drop idx) idx := by
  intro fuel
  induction fuel with
  | zero =>
    intro idx ctx hfuel
    have hidx : lines.length < idx := by omega
    have hdrop : lines.drop idx = [] := List.drop_eq_nil_of_le (by omega)
    rw [hdrop]
    simp [pauseLines, honouredBpsAux]
  | succ fuel ih =>
    intro idx ctx hfuel
    obtain ⟨hp, hf, he⟩ := contLoop_spec interp bps hok (lines.drop idx) idx ctx
    rw [pauseLines]
    rcases hres : contLoop interp bps (lines.drop idx) idx ctx with
        ⟨L, st, c, ctx'⟩ | ⟨c, ctx'⟩ | ⟨L, e, ctx'⟩
    · obtain ⟨hL, hlt, hrec⟩ := hp L st c ctx' hres
      have hdd : (lines.drop idx).drop (c - idx) = lines.drop c := by
        rw [List.drop_drop]
        congr 1
        omega
      rw [hrec, hdd]
      have hih := ih c ctx' (by omega)
      show L :: pauseLines interp lines bps fuel c ctx' =
        L :: honouredBpsAux bps (lines.drop c) c
      rw [hih]
    · rw [hf c ctx' hres]
    · exact absurd hres (he L e ctx')

/-- Membership in the honoured breakpoints, relative to the walk cursor:
`L` is honoured from cursor `idx` iff it is registered, lies at least two
beyond `idx`, and the line at (absolute) index `L - 2` — the line whose
execution precedes the breakpoint check for line `L` — exists and is
executable. -/
theorem honouredBpsAux_mem (bps : List Int) :
    ∀ (rem : List String) (idx L : Nat),
      L ∈ honouredBpsAux bps rem idx ↔
        ((L : Int) ∈ bps ∧ idx + 2 ≤ L ∧ L - 2 - idx < rem.length ∧
          execLine (rem.getD (L - 2 - idx) ("")) = true) := by
  intro rem
  induction rem with
  | nil =>
    intro idx L
    simp [honouredBpsAux]
  | cons l rest ih =>
    intro idx L
    rw [honouredBpsAux]
    split
    · rename_i hcond
      obtain ⟨hexec, hbp⟩ := hcond
      rw [List.mem_cons, ih (idx + 1) L]
      constructor
      · rintro (rfl | ⟨hb, hge, hlt, hex⟩)
        · refine ⟨by push_cast; exact hbp, by omega, by simp, ?_⟩
          simpa using hexec
        · refine ⟨hb, by omega, by simp; omega, ?_⟩
          rw [show L - 2 - idx = (L - 2 - (idx + 1)) + 1 from by omega]
          simpa using hex
      · rintro ⟨hb, hge, hlt, hex⟩
        by_cases hL : L = idx + 2
        · exact Or.inl hL
        · refine Or.inr ⟨hb, by omega, ?_, ?_⟩
          · simp at hlt
            omega
          · rw [show L - 2 - idx = (L - 2 - (idx + 1)) + 1 from by omega] at hex
            simpa using hex
    · rename_i hcond
      rw [ih (idx + 1) L]
      constructor
      · rintro ⟨hb, hge, hlt, hex⟩
        refine ⟨hb, by omega, by simp; omega, ?_⟩
        rw [show L - 2 - idx = (L - 2 - (idx + 1)) + 1 from by omega]
        simpa using hex
      · rintro ⟨hb, hge, hlt, hex⟩
        by_cases hL : L = idx + 2
        · subst hL
          rw [show idx + 2 - 2 - idx = 0 from by omega] at hex
          simp at hex
          refine absurd ⟨hex, ?_⟩ hcond
          push_cast at hb
          exact hb
        · refine ⟨hb, by omega, ?_, ?_⟩
          · simp at hlt
            omega
          · rw [show L - 2 - idx = (L - 2 - (idx + 1)) + 1 from by omega] at hex
            simpa using hex

/-- Breakpoint lines honoured by a full run: `L` is paused at iff it is
registered, at least 2 (a breakpoint at line 1 is never checked), its
predecessor line exists, and that predecessor is neither blank nor a comment
(the check is skipped after skipped lines). -/
theorem honouredBps_mem (lines : List String) (bps : List Int) (L : Nat) :
    L ∈ honouredBps lines bps ↔
      ((L : Int) ∈ bps ∧ 2 ≤ L ∧ L - 2 < lines.length ∧
        execLine (lines.getD (L - 2) ("")) = true) := by
  have := honouredBpsAux_mem bps lines 0 L
  simpa [honouredBps] using this

/-! ## Reachable-state invariant -/

/-- Invariant of all reachable server states: the attachment relation is 1:1
in both directions (no program key and no session address appears twice),
every attached program is a nonempty catalog name, and breakpoint-store
entries exist only for catalog programs. -/
def Inv (s : ServerState) : Prop :=
  (s.debugging.map (fun e => e.1)).Nodup ∧
  (s.debugging.map (fun e => e.2)).Nodup ∧
  (∀ e ∈ s.debugging, e.1 ≠ ("") ∧ (alookup s.programs e.1).isSome) ∧
  (∀ e ∈ s.breakpoints, (alookup s.programs e.1).isSome)

/-- `cont` never touches the catalog, the breakpoint store or the
attachment registry. -/
theorem cont_fixed (interp : Interp) (s : ServerState) (p : String) :
    (cont interp s p).2.programs = s.programs ∧
    (cont interp s p).2.breakpoints = s.breakpoints ∧
    (cont interp s p).2.debugging = s.debugging := by
  unfold cont
  split
  · exact ⟨rfl, rfl, rfl⟩
  · refine ⟨?_, ?_, ?_⟩ <;> (dsimp only; split <;> rfl)

/-- `run` never touches the catalog, the breakpoint store or the attachment
registry. -/
theorem run_fixed (interp : Interp) (s : ServerState) (p : String) :
    (run interp s p).2.programs = s.programs ∧
    (run interp s p).2.breakpoints = s.breakpoints ∧
    (run interp s p).2.debugging = s.debugging := by
  unfold run
  exact cont_fixed interp _ p

/-- Every event step preserves the invariant. -/
theorem Inv_step (interp : Interp) (s : ServerState) (ev : Event)
    (h : Inv s) : Inv (stepEv interp s ev) := by
  obtain ⟨h1, h2, h3, h4⟩ := h
  cases ev with
  | edisc a =>
    have hsub : (s.debugging.filter (fun e => e.2 != a)).Sublist s.debugging :=
      List.filter_sublist s.debugging
    refine ⟨(hsub.map (fun e => e.1)).nodup h1,
            (hsub.map (fun e => e.2)).nodup h2, ?_, h4⟩
    intro e he
    exact h3 e (hsub.subset he)
  | ecmd a c =>
    cases c with
    | help => exact ⟨h1, h2, h3, h4⟩
    | listPrograms => exact ⟨h1, h2, h3, h4⟩
    | listBreakpoints p =>
      show Inv (process_command interp s a (.listBreakpoints p)).2
      simp only [process_command]
      split <;> exact ⟨h1, h2, h3, h4⟩
    | addBreakpoint args =>
      show Inv (process_command interp s a (.addBreakpoint args)).2
      rcases args with _ | ⟨p, _ | ⟨line, _ | ⟨x, rest⟩⟩⟩
      · exact ⟨h1, h2, h3, h4⟩
      · exact ⟨h1, h2, h3, h4⟩
      · simp only [process_command]
        split
        · exact ⟨h1, h2, h3, h4⟩
        · split
          · exact ⟨h1, h2, h3, h4⟩
          · rename_i hprog _
            have hps : (alookup s.programs p).isSome := by
              simpa [Option.isNone_iff_eq_none, Option.isSome_iff_ne_none]
                using hprog
            have hsd : ∀ e ∈ setdefault s.breakpoints p ([] : List Int),
                (alookup s.programs e.1).isSome := by
              intro e he
              rcases mem_setdefault he with he | he
              · exact h4 e he
              · rw [he]
                exact hps
            split
            · refine ⟨h1, h2, h3, ?_⟩
              intro e he
              rcases mem_aset he with he | he
              · rw [he]
                exact hps
              · exact hsd e he
            · exact ⟨h1, h2, h3, hsd⟩
      · exact ⟨h1, h2, h3, h4⟩
    | rmvBreakpoint args =>
      show Inv (process_command interp s a (.rmvBreakpoint args)).2
      rcases args with _ | ⟨p, _ | ⟨line, _ | ⟨x, rest⟩⟩⟩
      · exact ⟨h1, h2, h3, h4⟩
      · exact ⟨h1, h2, h3, h4⟩
      · simp only [process_command]
        split
        · exact ⟨h1, h2, h3, h4⟩
        · split
          · exact ⟨h1, h2, h3, h4⟩
          · rename_i hprog _
            have hps : (alookup s.programs p).isSome := by
              simpa [Option.isNone_iff_eq_none, Option.isSome_iff_ne_none]
                using hprog
            have hsd : ∀ e ∈ setdefault s.breakpoints p ([] : List Int),
                (alookup s.programs e.1).isSome := by
              intro e he
              rcases mem_setdefault he with he | he
              · exact h4 e he
              · rw [he]
                exact hps
            split
            · refine ⟨h1, h2, h3, ?_⟩
              intro e he
              rcases mem_aset he with he | he
              · rw [he]
                exact hps
              · exact hsd e he
            · exact ⟨h1, h2, h3, hsd⟩
      · exact ⟨h1, h2, h3, h4⟩
    | attach p =>
      show Inv (process_command interp s a (.attach p)).2
      simp only [process_command]
      split
      · exact ⟨h1, h2, h3, h4⟩
      · split
        · exact ⟨h1, h2, h3, h4⟩
        · rename_i hne hdbg
          split
          · exact ⟨h1, h2, h3, h4⟩
          · rename_i hfind
            have hnone : alookup s.debugging p = none := by
              simpa [Option.isSome_iff_ne_none] using hdbg
            have happ : aset s.debugging p a = s.debugging ++ [(p, a)] :=
              aset_of_absent a hnone
            have hp1 : p ∉ s.debugging.map (fun e => e.1) :=
              (alookup_none_iff s.debugging p).mp hnone
            have hp2 : a ∉ s.debugging.map (fun e => e.2) := by
              intro hmem
              rcases List.mem_map.mp hmem with ⟨e, he, hea⟩
              have := List.find?_eq_none.mp hfind e he
              simp [hea] at this
            have hpp : ¬(p = ("") ∨ (alookup s.programs p).isNone = true) := hne
            push_neg at hpp
            have hInv' : Inv { s with debugging := s.debugging ++ [(p, a)] } := by
              refine ⟨?_, ?_, ?_, h4⟩
              · show ((s.debugging ++ [(p, a)]).map (fun e => e.1)).Nodup
                rw [List.map_append]
                simp [List.nodup_append, h1, hp1]
              · show ((s.debugging ++ [(p, a)]).map (fun e => e.2)).Nodup
                rw [List.map_append]
                simp [List.nodup_append, h2, hp2]
              · intro e he
                rcases List.mem_append.mp he with he | he
                · exact h3 e he
                · have he' : e = (p, a) := by simpa using he
                  rw [he']
                  refine ⟨hpp.1, ?_⟩
                  have := hpp.2
                  simpa [Option.isNone_iff_eq_none, Option.isSome_iff_ne_none]
                    using this
            split
            · exact happ ▸ hInv'
            · exact happ ▸ hInv'
    | detach =>
      show Inv (process_command interp s a .detach).2
      simp only [process_command]
      split
      · rename_i e _
        have hsub : (aerase s.debugging e.1).Sublist s.debugging :=
          aerase_sublist s.debugging e.1
        refine ⟨(hsub.map (fun x => x.1)).nodup h1,
                (hsub.map (fun x => x.2)).nodup h2, ?_, h4⟩
        intro x hx
        exact h3 x (hsub.subset hx)
      · exact ⟨h1, h2, h3, h4⟩
    | start =>
      show Inv (process_command interp s a .start).2
      simp only [process_command]
      split
      · exact ⟨h1, h2, h3, h4⟩
      · rename_i p _
        obtain ⟨hp, hb, hd⟩ := run_fixed interp s p
        exact ⟨hd ▸ h1, hd ▸ h2, by rw [hd, hp]; exact h3, by rw [hb, hp]; exact h4⟩
    | contCmd =>
      show Inv (process_command interp s a .contCmd).2
      simp only [process_command]
      split
      · exact ⟨h1, h2, h3, h4⟩
      · rename_i p _
        split
        · obtain ⟨hp, hb, hd⟩ := cont_fixed interp s p
          exact ⟨hd ▸ h1, hd ▸ h2, by rw [hd, hp]; exact h3, by rw [hb, hp]; exact h4⟩
        · exact ⟨h1, h2, h3, h4⟩
    | getVar v =>
      show Inv (process_command interp s a (.getVar v)).2
      simp only [process_command]
      split
      · exact ⟨h1, h2, h3, h4⟩
      · split <;> exact ⟨h1, h2, h3, h4⟩
    | setVar v val =>
      show Inv (process_command interp s a (.setVar v val)).2
      simp only [process_command]
      split
      · exact ⟨h1, h2, h3, h4⟩
      · split
        · exact ⟨h1, h2, h3, h4⟩
        · split <;> exact ⟨h1, h2, h3, h4⟩
    | unknown name =>
      show Inv (process_command interp s a (.unknown name)).2
      simp only [process_command]
      split <;> exact ⟨h1, h2, h3, h4⟩

/-- Folding any event sequence over an invariant state keeps the
invariant. -/
theorem Inv_foldl (interp : Interp) :
    ∀ (evs : List Event) (s : ServerState), Inv s →
      Inv (evs.foldl (stepEv interp) s) := by
  intro evs
  induction evs with
  | nil =>
    intro s h
    exact h
  | cons ev rest ih =>
    intro s h
    exact ih _ (Inv_step interp s ev h)

/-- Every state reachable by replaying events from startup satisfies the
invariant. -/
theorem Inv_replay (interp : Interp) (catalog : List (String × List String))
    (evs : List Event) : Inv (replay interp catalog evs) := by
  have hinit : Inv (mkInit catalog) := by
    refine ⟨?_, ?_, ?_, ?_⟩ <;> simp [mkInit, alookup]
  exact Inv_foldl interp evs (mkInit catalog) hinit

theorem mem_of_alookup_eq_some {α : Type} {l : List (String × α)}
    {k : String} {v : α} (h : alookup l k = some v) : (k, v) ∈ l := by
  induction l with
  | nil => simp [alookup] at h
  | cons e rest ih =>
    by_cases he : e.1 = k
    · simp [alookup, he] at h
      have he2 : e = (k, v) := by
        rcases e with ⟨e1, e2⟩
        simp at he h
        simp [he, h]
      rw [← he2]
      exact List.mem_cons_self e rest
    · simp [alookup, he] at h
      exact List.mem_cons_of_mem _ (ih h)

theorem insertAsc_eq (n : Int) (l : List Int) :
    insertAsc n l = List.orderedInsert (· ≤ ·) n l := by
  induction l with
  | nil => simp [insertAsc, List.orderedInsert]
  | cons m rest ih => simp [insertAsc, List.orderedInsert, ih]

theorem sortAsc_eq (l : List Int) :
    sortAsc l = List.insertionSort (· ≤ ·) l := by
  induction l with
  | nil => simp [sortAsc, List.insertionSort]
  | cons n rest ih => simp [sortAsc, List.insertionSort, insertAsc_eq, ih]

/-- `sorted` really sorts: the output of `sortAsc` is ascending. -/
theorem sortAsc_chain (l : List Int) : List.Chain' (· ≤ ·) (sortAsc l) := by
  rw [sortAsc_eq]
  exact (List.sorted_insertionSort (· ≤ ·) l).chain'

/-- `sorted` loses nothing: the output of `sortAsc` is a permutation of the
stored breakpoint set. -/
theorem sortAsc_perm (l : List Int) : (sortAsc l).Perm l := by
  rw [sortAsc_eq]
  exact List.perm_insertionSort (· ≤ ·) l

theorem mem_bpinsert_self (l : List Int) (n : Int) : n ∈ bpinsert l n := by
  unfold bpinsert
  split
  · assumption
  · simp

theorem not_mem_bpdiscard (l : List Int) (n : Int) : n ∉ bpdiscard l n := by
  simp [bpdiscard]

/-- If two entries share a key in a list with duplicate-free keys, they carry
the same value. -/
theorem nodup_keys_value_eq {α : Type} {l : List (String × α)} {k : String}
    {v w : α} (hnd : (l.map (fun e => e.1)).Nodup)
    (h1 : (k, v) ∈ l) (h2 : (k, w) ∈ l) : v = w := by
  induction l with
  | nil => simp at h1
  | cons e rest ih =>
    simp only [List.map_cons, List.nodup_cons] at hnd
    rcases List.mem_cons.mp h1 with h1 | h1 <;>
      rcases List.mem_cons.mp h2 with h2 | h2
    · exact congrArg Prod.snd (h1.trans h2.symm)
    · exact absurd (List.mem_map.mpr ⟨(k, w), h2, by rw [← h1]⟩) hnd.1
    · exact absurd (List.mem_map.mpr ⟨(k, v), h1, by rw [← h2]⟩) hnd.1
    · exact ih hnd.2 h1 h2

/-- No command ever changes the program catalog. -/
theorem process_programs (interp : Interp) (s : ServerState) (addr : Nat) :
    ∀ c : Cmd, (process_command interp s addr c).2.programs = s.programs := by
  intro c
  cases c with
  | help => rfl
  | listPrograms => rfl
  | listBreakpoints p =>
    simp only [process_command]
    split <;> rfl
  | addBreakpoint args =>
    rcases args with _ | ⟨p, _ | ⟨line, _ | ⟨x, rest⟩⟩⟩
    · rfl
    · rfl
    · simp only [process_command]
      split
      · rfl
      · split
        · rfl
        · split <;> rfl
    · rfl
  | rmvBreakpoint args =>
    rcases args with _ | ⟨p, _ | ⟨line, _ | ⟨x, rest⟩⟩⟩
    · rfl
    · rfl
    · simp only [process_command]
      split
      · rfl
      · split
        · rfl
        · split <;> rfl
    · rfl
  | attach p =>
    simp only [process_command]
    split
    · rfl
    · split
      · rfl
      · split
        · rfl
        · split <;> rfl
  | detach =>
    simp only [process_command]
    split <;> rfl
  | start =>
    simp only [process_command]
    split
    · rfl
    · exact (run_fixed interp s _).1
  | contCmd =>
    simp only [process_command]
    split
    · rfl
    · split
      · exact (cont_fixed interp s _).1
      · rfl
  | getVar v =>
    simp only [process_command]
    split
    · rfl
    · split <;> rfl
  | setVar v val =>
    simp only [process_command]
    split
    · rfl
    · split
      · rfl
      · split <;> rfl
  | unknown name =>
    simp only [process_command]
    split <;> rfl

/-- Replaying any event sequence leaves the catalog untouched. -/
theorem replay_programs (interp : Interp)
    (catalog : List (String × List String)) (evs : List Event) :
    (replay interp catalog evs).programs = catalog := by
  rw [replay]
  have : ∀ (l : List Event) (s : ServerState),
      (l.foldl (stepEv interp) s).programs = s.programs := by
    intro l
    induction l with
    | nil =>
      intro s
      rfl
    | cons ev rest ih =>
      intro s
      rw [List.foldl_cons, ih]
      cases ev with
      | ecmd a c => exact process_programs interp s a c
      | edisc a => rfl
  exact this evs (mkInit catalog)

/-- Under duplicate-free keys, removing every entry of a session leaves no
entry for a program that session was attached to. -/
theorem alookup_filter_addr_none {l : List (String × Nat)} {p : String}
    {a : Nat} (hnd : (l.map (fun e => e.1)).Nodup) (hmem : (p, a) ∈ l) :
    alookup (l.filter (fun e => e.2 != a)) p = none := by
  cases halo : alookup (l.filter (fun e => e.2 != a)) p with
  | none => rfl
  | some v =>
    have hm := mem_of_alookup_eq_some halo
    have hmv : (p, v) ∈ l := List.mem_of_mem_filter hm
    have hpred := List.of_mem_filter hm
    have hva : v = a := nodup_keys_value_eq hnd hmv hmem
    simp [hva] at hpred

theorem not_mem_filter_of_victim {victims : List String} {p : String}
    (hv : p ∈ victims) (l : List String) :
    p ∉ l.filter (fun q => !victims.contains q) := by
  intro hmem
  have := List.of_mem_filter hmem
  simp at this
  exact this hv

/-- `attach` succeeds whenever the program is a (nonempty-named) catalog
program with no attached session and the requesting session holds no
attachment. -/
theorem attach_ok (interp : Interp) {s : ServerState} {p : String}
    (addr2 : Nat) (hp : p ≠ ("")) (hcat : (alookup s.programs p).isSome)
    (hnone : alookup s.debugging p = none)
    (hfind : s.debugging.find? (fun e => e.2 == addr2) = none) :
    (process_command interp s addr2 (.attach p)).1 = .attached p := by
  simp only [process_command]
  rw [if_neg (by
    push_neg
    exact ⟨hp, by simp [Option.isNone_iff_eq_none,
      Option.isSome_iff_ne_none] at hcat ⊢; exact hcat⟩)]
  rw [if_neg (by simp [hnone])]
  rw [hfind]
  dsimp only
  split <;> rfl

/-! ## Claims -/

/-- C1 counterexample: for program `p1 = ["x = 1"]` with breakpoint line 1
registered before `start` (and never removed), the claim says the run pauses
at line 1 exactly once; in fact `start` immediately answers `Finished` — the
run never pauses, because the breakpoint check only ever tests the line after
the next one, so line 1 can never be paused at.  Both the command-level
interaction and the pause trace of the run are shown. -/
theorem C1_counterexample :
    (runCmds stubInterp (mkInit [(("p1"), ["x = 1"])])
        [(0, .addBreakpoint (["p1", "1"])), (0, .attach ("p1")),
         (0, .start)]).1 =
      [.bpSet ("1") ("p1"), .attached ("p1"),
       .finished ("p1") [(("x"), ("1"))]] ∧
    runPauses stubInterp (["x = 1"]) ([1]) = [] ∧
    ((1 : Int) ∈ ([1] : List Int) ∧ (1 : Nat) ∉ runPauses stubInterp (["x = 1"]) ([1])) := by
  refine ⟨by rfl, by rfl, by decide, by decide⟩

/-- C1 (amended): issuing `start` and then repeatedly `continue` until the
run finishes pauses exactly at those breakpoint lines `L` registered at
`start`-time (and not removed mid-run) with `L ≥ 2` whose preceding line
(index `L - 2`) exists and is neither blank nor a comment — in ascending
order, each exactly once.  In particular a breakpoint at line 1, or at a
line whose predecessor is blank or a comment, is never paused at.  The
hypothesis is that the interpreter succeeds on every statement, which is
what "until the run finishes" presupposes. -/
theorem C1_round_trip_amended (interp : Interp) (lines : List String)
    (bps : List Int)
    (hok : ∀ st c, ∃ c', interp.execStmt st c = Except.ok c') :
    runPauses interp lines bps = honouredBps lines bps ∧
    List.Chain' (· < ·) (runPauses interp lines bps) ∧
    ∀ L, L ∈ runPauses interp lines bps ↔
      ((L : Int) ∈ bps ∧ 2 ≤ L ∧ L - 2 < lines.length ∧
        execLine (lines.getD (L - 2) ("")) = true) := by
  have h0 : runPauses interp lines bps = honouredBps lines bps := by
    have := pauseLines_eq interp lines bps hok (lines.length + 1) 0 []
      (by omega)
    simpa [runPauses, honouredBps] using this
  refine ⟨h0, ?_, ?_⟩
  · rw [h0]
    exact honouredBpsAux_chain bps lines 0
  · intro L
    rw [h0]
    exact honouredBps_mem lines bps L

/-- Witness for C1 (amended) at a concrete input: two executable lines with
breakpoints at lines 2 and 3 under an interpreter that always succeeds. -/
theorem C1_round_trip_amended_witness :
    (∀ st c, ∃ c', okInterp.execStmt st c = Except.ok c') ∧
    (runPauses okInterp (["x = 1", "y = 2"]) ([2, 3]) =
        honouredBps (["x = 1", "y = 2"]) ([2, 3]) ∧
      List.Chain' (· < ·) (runPauses okInterp (["x = 1", "y = 2"]) ([2, 3])) ∧
      ∀ L, L ∈ runPauses okInterp (["x = 1", "y = 2"]) ([2, 3]) ↔
        ((L : Int) ∈ ([2, 3] : List Int) ∧ 2 ≤ L ∧
          L - 2 < (["x = 1", "y = 2"] : List String).length ∧
          execLine ((["x = 1", "y = 2"] : List String).getD (L - 2) ("")) = true)) :=
  ⟨fun _ c => ⟨c, rfl⟩,
   C1_round_trip_amended okInterp (["x = 1", "y = 2"]) ([2, 3])
     (fun _ c => ⟨c, rfl⟩)⟩

/-- C3 counterexample: `demo` exists in the catalog of a freshly started
server to which no breakpoint command was ever issued, yet
`list_breakpoints demo` answers NotFound — not the empty sequence the claim
requires — because the handler keys on the breakpoint store, which only
acquires an entry on the first `add_breakpoint`/`rmv_breakpoint`. -/
theorem C3_counterexample :
    (alookup (mkInit [(("demo"), ["x = 1"])]).programs ("demo")).isSome = true ∧
    (runCmds stubInterp (mkInit [(("demo"), ["x = 1"])])
        [(0, .listBreakpoints ("demo"))]).1 = [.notFound ("demo")] :=
  ⟨rfl, rfl⟩

/-- C3 (amended): in every reachable state, `list_breakpoints P` returns the
sorted breakpoint lines exactly when `P` has an entry in the breakpoint store
(entries are created by the first `add_breakpoint`/`rmv_breakpoint` for `P`,
even a failed one), and NotFound when it has none — in particular for a
catalog program for which no breakpoint command was ever issued.  When an
entry exists, `P` is a catalog program and the returned list is an ascending
permutation of the stored set. -/
theorem C3_list_breakpoints_amended (interp : Interp)
    (catalog : List (String × List String)) (evs : List Event)
    (p : String) (addr : Nat) :
    (alookup (replay interp catalog evs).breakpoints p = none →
      process_command interp (replay interp catalog evs) addr
          (.listBreakpoints p) =
        (.notFound p, replay interp catalog evs)) ∧
    (∀ l, alookup (replay interp catalog evs).breakpoints p = some l →
      process_command interp (replay interp catalog evs) addr
          (.listBreakpoints p) =
        (.breakpointsList p (sortAsc l), replay interp catalog evs) ∧
      List.Chain' (· ≤ ·) (sortAsc l) ∧ (sortAsc l).Perm l ∧
      (alookup (replay interp catalog evs).programs p).isSome) := by
  obtain ⟨-, -, -, h4⟩ := Inv_replay interp catalog evs
  constructor
  · intro hnone
    simp [process_command, hnone]
  · intro l hl
    refine ⟨by simp [process_command, hl], sortAsc_chain l, sortAsc_perm l, ?_⟩
    exact h4 (p, l) (mem_of_alookup_eq_some hl)

/-- Witness for C3 (amended): after one `add_breakpoint demo 5`, listing
succeeds with the sorted entry. -/
theorem C3_list_breakpoints_amended_witness :
    process_command stubInterp
        (replay stubInterp [(("demo"), ["x = 1"])]
          [.ecmd 0 (.addBreakpoint (["demo", "5"]))]) 0
        (.listBreakpoints ("demo")) =
      (.breakpointsList ("demo") (sortAsc ([5])),
       replay stubInterp [(("demo"), ["x = 1"])]
         [.ecmd 0 (.addBreakpoint (["demo", "5"]))]) ∧
    List.Chain' (· ≤ ·) (sortAsc ([5])) ∧ (sortAsc ([5])).Perm ([5]) ∧
    (alookup (replay stubInterp [(("demo"), ["x = 1"])]
        [.ecmd 0 (.addBreakpoint (["demo", "5"]))]).programs ("demo")).isSome :=
  (C3_list_breakpoints_amended stubInterp [(("demo"), ["x = 1"])]
    [.ecmd 0 (.addBreakpoint (["demo", "5"]))] ("demo") 0).2 ([5]) (by rfl)

/-- C9: for `demo = ["x = 1", "y = 2", "x = x + y"]` under the
assignment-and-arithmetic interpreter: Scenario A — `attach demo` then
`start` with no breakpoints finishes with `x = 3, y = 2`; Scenario B — with
a breakpoint at line 2, `start` pauses naming line 2 and statement `y = 2`,
and the following `continue` finishes with `x = 3, y = 2`. -/
theorem C9_demo_scenarios :
    (runCmds stubInterp (mkInit [(("demo"), ["x = 1", "y = 2", "x = x + y"])])
        [(0, .attach ("demo")), (0, .start)]).1 =
      [.attached ("demo"),
       .finished ("demo") [(("x"), ("3")), (("y"), ("2"))]] ∧
    (runCmds stubInterp (mkInit [(("demo"), ["x = 1", "y = 2", "x = x + y"])])
        [(0, .addBreakpoint (["demo", "2"])), (0, .attach ("demo")),
         (0, .start), (0, .contCmd)]).1 =
      [.bpSet ("2") ("demo"), .attached ("demo"),
       .breakpointAt 2 ("y = 2"),
       .finished ("demo") [(("x"), ("3")), (("y"), ("2"))]] :=
  ⟨rfl, rfl⟩

/-- C10: on an existing, non-busy program with no prior breakpoint-store
entry, `add_breakpoint demo abc` answers the integer-parse error yet still
creates an empty entry for `demo` (Python evaluates
`self.breakpoints.setdefault(program, set())` before `int(line)` raises), so
a following `list_breakpoints demo` succeeds with the empty list. -/
theorem C10_failed_add_creates_entry :
    (mkInit [(("demo"), ["x = 1", "y = 2", "x = x + y"])]).breakpoints = [] ∧
    pyToInt ("abc") = none ∧
    (runCmds stubInterp (mkInit [(("demo"), ["x = 1", "y = 2", "x = x + y"])])
        [(0, .addBreakpoint (["demo", "abc"])),
         (0, .listBreakpoints ("demo"))]).1 =
      [.lineMustBeInt, .breakpointsList ("demo") []] ∧
    (runCmds stubInterp (mkInit [(("demo"), ["x = 1", "y = 2", "x = x + y"])])
        [(0, .addBreakpoint (["demo", "abc"])),
         (0, .listBreakpoints ("demo"))]).2.breakpoints =
      [(("demo"), ([] : List Int))] :=
  ⟨rfl, rfl, rfl, rfl⟩

/-- C4: for every existing program `p` and integer line token, both
`add_breakpoint` and `rmv_breakpoint` answer Busy exactly when `p` is in the
running or paused set, and otherwise succeed — adding puts the line in the
stored set, removing takes it out. -/
theorem C4_breakpoint_busy_gate (interp : Interp) (s : ServerState)
    (addr : Nat) (p line : String) (pl : List String) (n : Int)
    (hp : alookup s.programs p = some pl) (hn : pyToInt line = some n) :
    ((p ∈ s.executing ∨ p ∈ s.paused) →
      process_command interp s addr (.addBreakpoint [p, line]) = (.busy p, s) ∧
      process_command interp s addr (.rmvBreakpoint [p, line]) = (.busy p, s)) ∧
    (¬(p ∈ s.executing ∨ p ∈ s.paused) →
      (process_command interp s addr (.addBreakpoint [p, line])).1 =
          .bpSet line p ∧
      (process_command interp s addr (.rmvBreakpoint [p, line])).1 =
          .bpRemoved line p ∧
      n ∈ bpsOf (process_command interp s addr (.addBreakpoint [p, line])).2 p ∧
      n ∉ bpsOf (process_command interp s addr (.rmvBreakpoint [p, line])).2 p) := by
  constructor
  · intro hbusy
    constructor
    · simp [process_command, hp, hbusy]
    · simp [process_command, hp, hbusy]
  · intro hbusy
    refine ⟨?_, ?_, ?_, ?_⟩
    · simp [process_command, hp, hbusy, hn]
    · simp [process_command, hp, hbusy, hn]
    · simp [process_command, hp, hbusy, hn, bpsOf, alookup_aset_self]
      exact mem_bpinsert_self _ n
    · simp [process_command, hp, hbusy, hn, bpsOf, alookup_aset_self]
      exact not_mem_bpdiscard _ n

/-- Witness for C4 at a concrete input: fresh server with `demo`, line token
`"2"`; the program is not busy, so both commands succeed. -/
theorem C4_breakpoint_busy_gate_witness :
    ((("demo") ∈ (mkInit [(("demo"), ["x = 1"])]).executing ∨
        ("demo") ∈ (mkInit [(("demo"), ["x = 1"])]).paused) →
      process_command stubInterp (mkInit [(("demo"), ["x = 1"])]) 0
          (.addBreakpoint [("demo"), ("2")]) =
        (.busy ("demo"), mkInit [(("demo"), ["x = 1"])]) ∧
      process_command stubInterp (mkInit [(("demo"), ["x = 1"])]) 0
          (.rmvBreakpoint [("demo"), ("2")]) =
        (.busy ("demo"), mkInit [(("demo"), ["x = 1"])])) ∧
    (¬(("demo") ∈ (mkInit [(("demo"), ["x = 1"])]).executing ∨
        ("demo") ∈ (mkInit [(("demo"), ["x = 1"])]).paused) →
      (process_command stubInterp (mkInit [(("demo"), ["x = 1"])]) 0
          (.addBreakpoint [("demo"), ("2")])).1 = .bpSet ("2") ("demo") ∧
      (process_command stubInterp (mkInit [(("demo"), ["x = 1"])]) 0
          (.rmvBreakpoint [("demo"), ("2")])).1 = .bpRemoved ("2") ("demo") ∧
      (2 : Int) ∈ bpsOf (process_command stubInterp
          (mkInit [(("demo"), ["x = 1"])]) 0
          (.addBreakpoint [("demo"), ("2")])).2 ("demo") ∧
      (2 : Int) ∉ bpsOf (process_command stubInterp
          (mkInit [(("demo"), ["x = 1"])]) 0
          (.rmvBreakpoint [("demo"), ("2")])).2 ("demo")) :=
  C4_breakpoint_busy_gate stubInterp (mkInit [(("demo"), ["x = 1"])]) 0
    ("demo") ("2") (["x = 1"]) 2 (by rfl) (by rfl)

/-- C5: for an attached session, `continue` answers the not-paused
StateError unless the program is in the paused set, and when paused it
re-enters the run loop at exactly the stored cursor and context. -/
theorem C5_continue_requires_paused (interp : Interp) (s : ServerState)
    (addr : Nat) (p : String) (hatt : sessionProgram s addr = some p) :
    (p ∉ s.paused →
      process_command interp s addr .contCmd = (.notPaused p, s)) ∧
    (p ∈ s.paused → ∀ i c, alookup s.states p = some (i, c) →
      (process_command interp s addr .contCmd).1 =
        stepResp p (contLoop interp (bpsOf s p) ((linesOf s p).drop i) i c)) := by
  constructor
  · intro hnp
    simp only [process_command]
    rw [hatt]
    dsimp only
    rw [if_neg hnp]
  · intro hpause i c hst
    simp only [process_command]
    rw [hatt]
    dsimp only
    rw [if_pos hpause]
    unfold cont
    rw [hst]
    dsimp only
    simp only [bpsOf, linesOf]
    split <;> (rename_i heq; rw [heq]; rfl)

/-- Witness for C5: a paused single-line program with stored cursor 0 and
empty context; `continue` runs the loop to completion. -/
theorem C5_continue_requires_paused_witness :
    ((("demo") ∉ pausedDemo.paused →
      process_command stubInterp pausedDemo 0 .contCmd =
        (.notPaused ("demo"), pausedDemo)) ∧
     (("demo") ∈ pausedDemo.paused →
      ∀ i c, alookup pausedDemo.states ("demo") = some (i, c) →
        (process_command stubInterp pausedDemo 0 .contCmd).1 =
          stepResp ("demo")
            (contLoop stubInterp (bpsOf pausedDemo ("demo"))
              ((linesOf pausedDemo ("demo")).drop i) i c))) :=
  C5_continue_requires_paused stubInterp pausedDemo 0 ("demo") (by rfl)

/-- C6: whenever `start` is issued by an attached session, the run begins at
cursor 0 with a fresh empty context — the response is the loop outcome on
`(0, [])`, independently of whatever cursor, stored state or variable
bindings the program had before, so nothing survives from a previous run. -/
theorem C6_start_resets (interp : Interp) (s : ServerState) (addr : Nat)
    (p : String) (hatt : sessionProgram s addr = some p) :
    (process_command interp s addr .start).1 =
      stepResp p (contLoop interp (bpsOf s p) (linesOf s p) 0 []) ∧
    ∀ (st' : List (String × (Nat × Ctx))) (ct' : List (String × Ctx)),
      (process_command interp
          { s with states := st', contexts := ct' } addr .start).1 =
        (process_command interp s addr .start).1 := by
  have hrun : ∀ (st' : List (String × (Nat × Ctx)))
      (ct' : List (String × Ctx)),
      (run interp { s with states := st', contexts := ct' } p).1 =
        stepResp p (contLoop interp (bpsOf s p) (linesOf s p) 0 []) := by
    intro st' ct'
    simp only [run, cont, alookup_aset_self]
    simp only [bpsOf, linesOf, List.drop_zero]
    split <;> (rename_i heq; rw [heq]; rfl)
  have hself : (run interp s p).1 =
      stepResp p (contLoop interp (bpsOf s p) (linesOf s p) 0 []) := by
    have := hrun s.states s.contexts
    exact this
  have hproc : ∀ (st' : List (String × (Nat × Ctx)))
      (ct' : List (String × Ctx)),
      (process_command interp { s with states := st', contexts := ct' }
          addr .start) =
        run interp { s with states := st', contexts := ct' } p := by
    intro st' ct'
    simp only [process_command]
    have hatt' : sessionProgram { s with states := st', contexts := ct' }
        addr = some p := hatt
    rw [hatt']
  have hproc0 : process_command interp s addr .start = run interp s p := by
    simp only [process_command]
    rw [hatt]
  refine ⟨by rw [hproc0]; exact hself, ?_⟩
  intro st' ct'
  rw [hproc0, hproc st' ct', hrun st' ct', hself]

/-- Witness for C6: a state whose stored context holds a stale binding
`z = 9` and cursor 1; `start` still begins at `(0, [])`. -/
theorem C6_start_resets_witness :
    (process_command stubInterp staleDemo 0 .start).1 =
      stepResp ("demo")
        (contLoop stubInterp (bpsOf staleDemo ("demo"))
          (linesOf staleDemo ("demo")) 0 []) ∧
    ∀ (st' : List (String × (Nat × Ctx))) (ct' : List (String × Ctx)),
      (process_command stubInterp
          { staleDemo with states := st', contexts := ct' } 0 .start).1 =
        (process_command stubInterp staleDemo 0 .start).1 :=
  C6_start_resets stubInterp staleDemo 0 ("demo") (by rfl)

/-- C7: when the interpreter fails on a statement, `cont` reports the
failing one-based line and the cause, removes the program from both the
running and the paused sets, and stores back the entry cursor (which lies at
or before the failing statement, never past it) with the partially updated
context. -/
theorem C7_interpreter_failure (interp : Interp) (s : ServerState)
    (p : String) (i : Nat) (c : Ctx) (L : Nat) (msg : String) (cfin : Ctx)
    (hst : alookup s.states p = some (i, c))
    (herr : contLoop interp (bpsOf s p) ((linesOf s p).drop i) i c =
      .errored L msg cfin) :
    (cont interp s p).1 = .errorOnLine L msg ∧
    p ∉ (cont interp s p).2.executing ∧
    p ∉ (cont interp s p).2.paused ∧
    alookup (cont interp s p).2.states p = some (i, cfin) ∧
    i < L := by
  have hlt : i < L := contLoop_errored_lt interp (bpsOf s p) _ i c L msg cfin herr
  unfold cont
  rw [hst]
  dsimp only
  simp only [bpsOf, linesOf] at herr ⊢
  rw [herr]
  dsimp only
  refine ⟨rfl, not_mem_sremove _ p, not_mem_sremove _ p, ?_, hlt⟩
  rw [alookup_aset_self]

/-- Witness for C7: program `["x = y"]` with `y` unbound errors on line 1
under the stub interpreter. -/
theorem C7_interpreter_failure_witness :
    (cont stubInterp erroringDemo ("demo")).1 =
      .errorOnLine 1 ("name not defined: y") ∧
    ("demo") ∉ (cont stubInterp erroringDemo ("demo")).2.executing ∧
    ("demo") ∉ (cont stubInterp erroringDemo ("demo")).2.paused ∧
    alookup (cont stubInterp erroringDemo ("demo")).2.states ("demo") =
      some (0, []) ∧
    0 < 1 :=
  C7_interpreter_failure stubInterp erroringDemo ("demo") 0 [] 1
    ("name not defined: y") [] (by rfl) (by rfl)

/-- C8: `detach`, and likewise the cleanup run on disconnect, removes the
session's attachment and clears the program's running/paused markers while
leaving the stored cursor/context map untouched, after which `attach` to
that program succeeds for any session that holds no attachment.  (The
hypotheses — duplicate-free registry keys, the program being a nonempty
catalog name — hold in every reachable state by the registry invariant.) -/
theorem C8_detach_releases (interp : Interp) (s : ServerState) (addr : Nat)
    (p : String) (a : Nat)
    (hfind : s.debugging.find? (fun e => e.2 == addr) = some (p, a))
    (hnd : (s.debugging.map (fun e => e.1)).Nodup)
    (hcat : (alookup s.programs p).isSome) (hp : p ≠ ("")) :
    ((process_command interp s addr .detach).1 = .detached p ∧
     alookup (process_command interp s addr .detach).2.debugging p = none ∧
     p ∉ (process_command interp s addr .detach).2.executing ∧
     p ∉ (process_command interp s addr .detach).2.paused ∧
     (process_command interp s addr .detach).2.states = s.states ∧
     (process_command interp s addr .detach).2.contexts = s.contexts ∧
     (∀ addr2,
       (process_command interp s addr .detach).2.debugging.find?
           (fun e => e.2 == addr2) = none →
       (process_command interp (process_command interp s addr .detach).2
           addr2 (.attach p)).1 = .attached p)) ∧
    (alookup (cleanup s addr).debugging p = none ∧
     p ∉ (cleanup s addr).executing ∧
     p ∉ (cleanup s addr).paused ∧
     (cleanup s addr).states = s.states ∧
     (cleanup s addr).contexts = s.contexts ∧
     (∀ addr2,
       (cleanup s addr).debugging.find? (fun e => e.2 == addr2) = none →
       (process_command interp (cleanup s addr) addr2 (.attach p)).1 =
         .attached p)) := by
  have hmem : (p, a) ∈ s.debugging := List.mem_of_find?_eq_some hfind
  have ha : a = addr := by
    have := List.find?_some hfind
    simpa using this
  subst ha
  constructor
  · have hdet : process_command interp s a .detach =
        (.detached p,
         { s with debugging := aerase s.debugging p,
                  executing := sremove s.executing p,
                  paused := sremove s.paused p }) := by
      simp only [process_command]
      rw [hfind]
    rw [hdet]
    refine ⟨rfl, alookup_aerase_self s.debugging p, not_mem_sremove _ p,
      not_mem_sremove _ p, rfl, rfl, ?_⟩
    intro addr2 hfind2
    exact attach_ok interp addr2 hp hcat (alookup_aerase_self s.debugging p)
      hfind2
  · have hvict : p ∈ (s.debugging.filter (fun e => e.2 == a)).map
        (fun e => e.1) :=
      List.mem_map.mpr ⟨(p, a), List.mem_filter.mpr ⟨hmem, by simp⟩, rfl⟩
    have hnone : alookup (cleanup s a).debugging p = none :=
      alookup_filter_addr_none hnd hmem
    refine ⟨hnone, not_mem_filter_of_victim hvict _,
      not_mem_filter_of_victim hvict _, rfl, rfl, ?_⟩
    intro addr2 hfind2
    exact attach_ok interp addr2 hp hcat hnone hfind2

/-- Witness for C8: session 0 attached to the paused `demo`; both the
`detach` path and the disconnect-cleanup path are exercised at `addr2 = 1`
via a fresh attach — the attach-success conjuncts are discharged on the
concrete emptied registries. -/
theorem C8_detach_releases_witness :
    ((process_command stubInterp pausedDemo 0 .detach).1 =
        .detached ("demo") ∧
     alookup (process_command stubInterp pausedDemo 0
         .detach).2.debugging ("demo") = none ∧
     ("demo") ∉ (process_command stubInterp pausedDemo 0 .detach).2.executing ∧
     ("demo") ∉ (process_command stubInterp pausedDemo 0 .detach).2.paused ∧
     (process_command stubInterp pausedDemo 0 .detach).2.states =
       pausedDemo.states ∧
     (process_command stubInterp pausedDemo 0 .detach).2.contexts =
       pausedDemo.contexts ∧
     (∀ addr2,
       (process_command stubInterp pausedDemo 0 .detach).2.debugging.find?
           (fun e => e.2 == addr2) = none →
       (process_command stubInterp
           (process_command stubInterp pausedDemo 0 .detach).2 addr2
           (.attach ("demo"))).1 = .attached ("demo"))) ∧
    (alookup (cleanup pausedDemo 0).debugging ("demo") = none ∧
     ("demo") ∉ (cleanup pausedDemo 0).executing ∧
     ("demo") ∉ (cleanup pausedDemo 0).paused ∧
     (cleanup pausedDemo 0).states = pausedDemo.states ∧
     (cleanup pausedDemo 0).contexts = pausedDemo.contexts ∧
     (∀ addr2,
       (cleanup pausedDemo 0).debugging.find?
           (fun e => e.2 == addr2) = none →
       (process_command stubInterp (cleanup pausedDemo 0) addr2
           (.attach ("demo"))).1 = .attached ("demo"))) :=
  C8_detach_releases stubInterp pausedDemo 0 ("demo") 0 (by rfl) (by decide)
    (by rfl) (by decide)

/-- C2: in every reachable state the attachment relation is 1:1 — no
program appears twice in the registry and no session address appears twice —
and `attach` fails exactly as specified, without creating an attachment: an
unknown program gets NotFound, a program that already has an attached
session gets AlreadyAttached, and a session that already holds an
attachment gets SessionBusy (named after the program it is debugging); in
every failure case the state is returned unchanged.  The hypothesis that
catalog names are nonempty reflects the loader, which derives each name
from a file name ending in `.txt`. -/
theorem C2_attachment_invariant (interp : Interp)
    (catalog : List (String × List String))
    (hcat : ∀ e ∈ catalog, e.1 ≠ ("")) (evs : List Event) (addr : Nat)
    (p : String) :
    ((replay interp catalog evs).debugging.map (fun e => e.1)).Nodup ∧
    ((replay interp catalog evs).debugging.map (fun e => e.2)).Nodup ∧
    (alookup (replay interp catalog evs).programs p = none →
      process_command interp (replay interp catalog evs) addr (.attach p) =
        (.notFound p, replay interp catalog evs)) ∧
    (∀ pl, alookup (replay interp catalog evs).programs p = some pl →
      (alookup (replay interp catalog evs).debugging p).isSome →
      process_command interp (replay interp catalog evs) addr (.attach p) =
        (.alreadyDebugged p, replay interp catalog evs)) ∧
    (∀ pl e, alookup (replay interp catalog evs).programs p = some pl →
      alookup (replay interp catalog evs).debugging p = none →
      (replay interp catalog evs).debugging.find?
          (fun x => x.2 == addr) = some e →
      process_command interp (replay interp catalog evs) addr (.attach p) =
        (.alreadyDebuggingOther e.1, replay interp catalog evs)) := by
  obtain ⟨h1, h2, h3, h4⟩ := Inv_replay interp catalog evs
  refine ⟨h1, h2, ?_, ?_, ?_⟩
  · intro hnone
    simp [process_command, hnone]
  · intro pl hpl hatt
    have hne : p ≠ ("") := by
      rcases Option.isSome_iff_exists.mp hatt with ⟨a, ha⟩
      exact (h3 (p, a) (mem_of_alookup_eq_some ha)).1
    simp only [process_command]
    rw [if_neg (by push_neg; exact ⟨hne, by simp [hpl]⟩)]
    rw [if_pos hatt]
  · intro pl e hpl hnone hfind
    have hne : p ≠ ("") := by
      have hmem : (p, pl) ∈ catalog := by
        have := replay_programs interp catalog evs
        exact mem_of_alookup_eq_some (by rw [← this]; exact hpl)
      exact hcat (p, pl) hmem
    simp only [process_command]
    rw [if_neg (by push_neg; exact ⟨hne, by simp [hpl]⟩)]
    rw [if_neg (by simp [hnone])]
    rw [hfind]

/-- Witness for C2: the empty event sequence over a one-program catalog;
the nodup invariants hold of the empty registry, and the failure-mode
conjuncts are conditionals discharged trivially or by the theorem. -/
theorem C2_attachment_invariant_witness :
    ((replay stubInterp [(("demo"), ["x = 1"])] []).debugging.map
        (fun e => e.1)).Nodup ∧
    ((replay stubInterp [(("demo"), ["x = 1"])] []).debugging.map
        (fun e => e.2)).Nodup ∧
    (alookup (replay stubInterp [(("demo"), ["x = 1"])] []).programs
        ("nosuch") = none →
      process_command stubInterp (replay stubInterp [(("demo"), ["x = 1"])] [])
          7 (.attach ("nosuch")) =
        (.notFound ("nosuch"), replay stubInterp [(("demo"), ["x = 1"])] [])) ∧
    (∀ pl, alookup (replay stubInterp [(("demo"), ["x = 1"])] []).programs
        ("nosuch") = some pl →
      (alookup (replay stubInterp [(("demo"), ["x = 1"])] []).debugging
          ("nosuch")).isSome →
      process_command stubInterp (replay stubInterp [(("demo"), ["x = 1"])] [])
          7 (.attach ("nosuch")) =
        (.alreadyDebugged ("nosuch"),
         replay stubInterp [(("demo"), ["x = 1"])] [])) ∧
    (∀ pl e, alookup (replay stubInterp [(("demo"), ["x = 1"])] []).programs
        ("nosuch") = some pl →
      alookup (replay stubInterp [(("demo"), ["x = 1"])] []).debugging
          ("nosuch") = none →
      (replay stubInterp [(("demo"), ["x = 1"])] []).debugging.find?
          (fun x => x.2 == 7) = some e →
      process_command stubInterp (replay stubInterp [(("demo"), ["x = 1"])] [])
          7 (.attach ("nosuch")) =
        (.alreadyDebuggingOther e.1,
         replay stubInterp [(("demo"), ["x = 1"])] [])) :=
  C2_attachment_invariant stubInterp [(("demo"), ["x = 1"])]
    (by intro e he; simp only [List.mem_singleton] at he; subst he; decide)
    [] 7 ("nosuch")

end DebugSrv
